import Mathlib

/-!
Verification of the mutation-testing grading engine of
`neu-se/spring22-hw3-autograde` (`src/main.ts`).

The TypeScript source is shallowly embedded below.  JavaScript `number`
values appearing in configurations and reports are modelled as `Int`
(the `NaN` produced by a failed `parseInt` is modelled as `none` in an
`Option Int`, with comparisons against `NaN` evaluating to `false` as in
JavaScript).  Thrown exceptions are modelled with `Except`.

Two versions of `gradeMutationUnit` appear in the repository: the one in
`src/main.ts`, which calls `Array.prototype.reverse()` on the unit's
`breakPoints` (an in-place reversal that mutates the configuration
object), and the one in the revised copy of `main.ts`, which first copies
the array with `concat([])`.  Both are embedded: the mutating one returns
the updated `GradedUnit` alongside its `TestResult`.
-/

/-- `minimumMutantsDetected`/`pointsToAward` are TypeScript `number`s;
integer-valued configurations are modelled with `Int`. -/
structure BreakPoint where
  minimumMutantsDetected : Int
  pointsToAward : Int
deriving Repr, DecidableEq

structure GradedUnit where
  name : String
  breakPoints : List BreakPoint
  locations : List String
deriving Repr, DecidableEq

structure GradingConfig where
  gradedUnits : List GradedUnit
  submissionFiles : List (String × String)
deriving Repr, DecidableEq

/-- `max_score` is `Math.max(...)` of the points; `Option Int` with `none`
standing for the `-Infinity` that `Math.max` yields on an empty argument
list. -/
structure TestResult where
  score : Int
  max_score : Option Int
  name : String
  output : String
deriving Repr, DecidableEq

/-- From the external `mutantschema` (only the fields the grader reads:
`location.start.line`). -/
structure SourcePosition where
  line : Int
deriving Repr, DecidableEq

structure SourceLocation where
  start : SourcePosition
deriving Repr, DecidableEq

/-- From the external `mutantschema` (only the fields the grader reads:
`status` and `location`). -/
structure MutantResult where
  status : String
  location : SourceLocation
deriving Repr, DecidableEq

structure FileResult where
  mutants : List MutantResult
deriving Repr, DecidableEq

/-- `files` is a JavaScript object (string keys, insertion-ordered, keys
distinct); modelled as an association list in key order, so that
`Object.keys` enumeration and indexing `files[file]` coincide with
traversing the pairs. -/
structure MutationTestResult where
  files : List (String × FileResult)
deriving Repr, DecidableEq

/-- Parsed form of a `locations` entry.  The line fields are `Option Int`
because JavaScript `parseInt` returns `NaN` (here `none`) on
non-numeric input. -/
structure LocationRange where
  fileName : String
  startLine : Option Int
  endLine : Option Int
deriving Repr, DecidableEq

/-- Errors thrown by the grading core.  `unsupportedLocationFormat` is the
`"No support for column mutators right now."` error;
`typeErrorUndefined` models the JavaScript `TypeError` raised by reading
a property of `undefined` (out-of-bounds array access). -/
inductive JsError where
  | unsupportedLocationFormat
  | typeErrorUndefined
deriving Repr, DecidableEq

inductive ConfigError where
  | invalidBreakpointOrdering (unitName : String)
deriving Repr, DecidableEq

deriving instance DecidableEq for Except

/-! ### JavaScript string primitives

Modelled structurally over `String.data` so that every definition
reduces in the kernel. -/

/-- `String.prototype.split` with a single-character separator, on
character lists.  `splitOnChar c [] = [[]]`, as in JavaScript where
`"".split(c) = [""]`. -/
def splitOnChar (c : Char) : List Char → List (List Char)
  | [] => [[]]
  | x :: xs =>
    match splitOnChar c xs with
    | [] => [[x]]
    | r :: rs => if x = c then [] :: r :: rs else (x :: r) :: rs

def jsSplit (c : Char) (s : String) : List String :=
  (splitOnChar c s.data).map (fun cs => ⟨cs⟩)

/-- `String.prototype.includes` with a single-character argument. -/
def jsContainsChar (s : String) (c : Char) : Bool :=
  s.data.any (fun x => x = c)

def charsPrefixOf : List Char → List Char → Bool
  | [], _ => true
  | _ :: _, [] => false
  | a :: as, b :: bs => a = b && charsPrefixOf as bs

def charsInfixOf (pat : List Char) : List Char → Bool
  | [] => pat.isEmpty
  | c :: rest => charsPrefixOf pat (c :: rest) || charsInfixOf pat rest

/-- `s.includes(pat)`: substring containment. -/
def jsIncludes (s pat : String) : Bool :=
  charsInfixOf pat.data s.data

/-- Digit-run part of `parseInt`: value of the longest leading run of
decimal digits, `none` (`NaN`) if there is none. -/
def parseDigits (cs : List Char) : Option Nat :=
  let ds := cs.takeWhile (fun ch => ch.isDigit)
  if ds.isEmpty then none
  else some (ds.foldl (fun acc ch => acc * 10 + (ch.toNat - 48)) 0)

/-- Optional sign in front of the digit run. -/
def parseSigned : List Char → Option Int
  | '-' :: r => (parseDigits r).map (fun v => -(v : Int))
  | '+' :: r => (parseDigits r).map (fun v => (v : Int))
  | cs => (parseDigits cs).map (fun v => (v : Int))

/-- `parseInt` on a decimal string: skip leading whitespace, optional
sign, longest run of digits; `none` models `NaN`. -/
def jsParseInt (s : String) : Option Int :=
  parseSigned (s.data.dropWhile (fun ch => ch.isWhitespace))

/-- `extractLocationInformation` from `src/main.ts`.  A one-part split
(no `:` in the input) leaves `parts[1]` `undefined`, so the subsequent
`parts[1].includes` throws a `TypeError`. -/
def extractLocationInformation (location : String) : Except JsError LocationRange :=
  let parts := jsSplit ':' location
  if parts.length > 2 then
    .error .unsupportedLocationFormat
  else
    match parts with
    | [] => .error .typeErrorUndefined
    | [_] => .error .typeErrorUndefined
    | fileName :: lineSpec :: _ =>
      if jsContainsChar lineSpec '-' then
        let lineParts := jsSplit '-' lineSpec
        .ok { fileName := fileName
              startLine := jsParseInt (lineParts.getD 0 "")
              endLine := jsParseInt (lineParts.getD 1 "") }
      else
        let startLine := jsParseInt lineSpec
        .ok { fileName := fileName, startLine := startLine, endLine := startLine }

/-! ### The grading core -/

/-- `Math.max(...)` over a list of arguments; `none` is the `-Infinity`
returned for an empty argument list. -/
def jsMathMax : List Int → Option Int
  | [] => none
  | x :: xs =>
    match jsMathMax xs with
    | none => some x
    | some m => some (max x m)

/-- JavaScript `Array.prototype.map` over a function that may throw,
propagating the first exception (left to right). -/
def mapExcept (g : α → Except ε β) : List α → Except ε (List β)
  | [] => .ok []
  | x :: xs =>
    match g x with
    | .error e => .error e
    | .ok y =>
      match mapExcept g xs with
      | .error e => .error e
      | .ok ys => .ok (y :: ys)

/-- `gradedLocations.find(loc => fileName.includes(loc.fileName)) !== undefined`. -/
def mutatedFileContainsAGradedUnit (gradedLocations : List LocationRange)
    (fileName : String) : Bool :=
  (gradedLocations.find? (fun mutatedLocation =>
    jsIncludes fileName mutatedLocation.fileName)).isSome

/-- `a <= b` where `a` may be `NaN` (`none`); any comparison against
`NaN` is `false` in JavaScript. -/
def jnLe (a : Option Int) (b : Int) : Bool :=
  match a with
  | some x => x ≤ b
  | none => false

/-- `a >= b` where `a` may be `NaN` (`none`). -/
def jnGe (a : Option Int) (b : Int) : Bool :=
  match a with
  | some x => b ≤ x
  | none => false

/-- `gradedLocations.find(loc => loc.startLine <= m.location.start.line &&
loc.endLine >= m.location.start.line) !== undefined`. -/
def mutantContainsThisGradedUnit (gradedLocations : List LocationRange)
    (mutant : MutantResult) : Bool :=
  (gradedLocations.find? (fun mutatedLocation =>
    jnLe mutatedLocation.startLine mutant.location.start.line &&
    jnGe mutatedLocation.endLine mutant.location.start.line)).isSome

/-- The `mutantsDetected` computation of `gradeMutationUnit`:
`Object.keys(files).filter(...).reduce(...)` with the nested
`mutants.filter(...).reduce(...)` counting `"Killed"` mutants. -/
def mutantsDetected (gradedLocations : List LocationRange)
    (mutationResults : MutationTestResult) : Nat :=
  (mutationResults.files.filter (fun file =>
      mutatedFileContainsAGradedUnit gradedLocations file.1)).foldl
    (fun mutantsFoundSoFar file =>
      mutantsFoundSoFar +
        ((file.2.mutants.filter (mutantContainsThisGradedUnit gradedLocations)).foldl
          (fun mutantsFoundThisFile mutant =>
            if mutant.status = "Killed" then mutantsFoundThisFile + 1
            else mutantsFoundThisFile) 0)) 0

/-- Decimal rendering used for the template string
`Faults detected: ${d}/${t}` (fuel-based so it reduces in the kernel). -/
def digitChar (n : Nat) : Char :=
  match n with
  | 0 => '0'
  | 1 => '1'
  | 2 => '2'
  | 3 => '3'
  | 4 => '4'
  | 5 => '5'
  | 6 => '6'
  | 7 => '7'
  | 8 => '8'
  | _ => '9'

def natDigitsFuel : Nat → Nat → List Char
  | 0, _ => []
  | fuel + 1, n =>
    if n < 10 then [digitChar n]
    else natDigitsFuel fuel (n / 10) ++ [digitChar (n % 10)]

def natToString (n : Nat) : String := ⟨natDigitsFuel (n + 1) n⟩

def intToString (i : Int) : String :=
  if i < 0 then "-" ++ natToString i.natAbs else natToString i.natAbs

/-- `gradeMutationUnit` from `src/main.ts`.

The breakpoint scan is `config.breakPoints.reverse().find(...)`:
`Array.prototype.reverse` reverses the stored array *in place* and
returns it, so the later read
`config.breakPoints[config.breakPoints.length - 1]` sees the reversed
array, and the caller's `GradedUnit` is left with its `breakPoints`
reversed.  The mutation is made explicit by returning the updated
`GradedUnit` with the `TestResult`.  For empty `breakPoints` the
last-element read is `undefined` and the `.minimumMutantsDetected`
access throws a `TypeError`. -/
def gradeMutationUnit (config : GradedUnit) (mutationResults : MutationTestResult) :
    Except JsError (TestResult × GradedUnit) :=
  let maxScore := jsMathMax (config.breakPoints.map (fun bp => bp.pointsToAward))
  match mapExcept extractLocationInformation config.locations with
  | .error e => .error e
  | .ok gradedLocations =>
    let d := mutantsDetected gradedLocations mutationResults
    let reversed := config.breakPoints.reverse
    let breakPointHit := reversed.find? (fun bp =>
      decide (bp.minimumMutantsDetected ≤ (d : Int)))
    let score : Int :=
      match breakPointHit with
      | some bp => bp.pointsToAward
      | none => 0
    match reversed.getLast? with
    | none => .error .typeErrorUndefined
    | some lastBP =>
      .ok ({ score := score
             max_score := maxScore
             name := config.name
             output := "Faults detected: " ++ natToString d ++ "/" ++
               intToString lastBP.minimumMutantsDetected },
           { config with breakPoints := reversed })

/-- `gradeMutationUnit` from the revised `main.ts` in the repository,
which scans `config.breakPoints.concat([]).reverse()` — a copy — so the
stored breakpoint array is left untouched and the summary line reads the
genuinely last declared breakpoint. -/
def gradeMutationUnitFixed (config : GradedUnit) (mutationResults : MutationTestResult) :
    Except JsError TestResult :=
  let maxScore := jsMathMax (config.breakPoints.map (fun bp => bp.pointsToAward))
  match mapExcept extractLocationInformation config.locations with
  | .error e => .error e
  | .ok gradedLocations =>
    let d := mutantsDetected gradedLocations mutationResults
    let breakPointsReversed := (config.breakPoints ++ []).reverse
    let breakPointHit := breakPointsReversed.find? (fun bp =>
      decide (bp.minimumMutantsDetected ≤ (d : Int)))
    let score : Int :=
      match breakPointHit with
      | some bp => bp.pointsToAward
      | none => 0
    match config.breakPoints.getLast? with
    | none => .error .typeErrorUndefined
    | some lastBP =>
      .ok { score := score
            max_score := maxScore
            name := config.name
            output := "Faults detected: " ++ natToString d ++ "/" ++
              intToString lastBP.minimumMutantsDetected }

/-- The inner `for (const breakPoint of gradedUnit.breakPoints)` loop of
`validateConfig`, carrying the running `lastBP` value (initially `-1`). -/
def validateUnitBreakPoints (lastBP : Int) (bps : List BreakPoint)
    (unitName : String) : Except ConfigError Unit :=
  match bps with
  | [] => .ok ()
  | bp :: rest =>
    if bp.minimumMutantsDetected ≤ lastBP then
      .error (.invalidBreakpointOrdering unitName)
    else
      validateUnitBreakPoints bp.minimumMutantsDetected rest unitName

/-- The outer `for (const gradedUnit of config.gradedUnits)` loop. -/
def validateConfigUnits : List GradedUnit → Except ConfigError Unit
  | [] => .ok ()
  | u :: rest =>
    match validateUnitBreakPoints (-1) u.breakPoints u.name with
    | .error e => .error e
    | .ok _ => validateConfigUnits rest

/-- `validateConfig` from `src/main.ts`. -/
def validateConfig (config : GradingConfig) : Except ConfigError Unit :=
  validateConfigUnits config.gradedUnits

structure GraderOutput where
  output : Option String
  stdout_visibility : String
  tests : Option (List TestResult)
  score : Option Int
deriving Repr, DecidableEq

/-- `gradeStrykerResults` from `src/main.ts`:
`schema.gradedUnits.map(u => gradeMutationUnit(u, results))` wrapped in
the fixed output record.  Each call receives its own (distinct)
`GradedUnit` object, so only the `TestResult` component is collected. -/
def gradeStrykerResults (schema : GradingConfig) (results : MutationTestResult) :
    Except JsError GraderOutput :=
  match mapExcept (fun gradedUnit =>
      match gradeMutationUnit gradedUnit results with
      | .error e => .error e
      | .ok pr => .ok pr.1) schema.gradedUnits with
  | .error e => .error e
  | .ok testResults =>
    .ok { output := some ""
          stdout_visibility := "hidden"
          tests := some testResults
          score := none }


/-! ### Specification-side definitions

These follow the wording of the specification (not the source) and are
compared with the source translations above. -/

instance optIntPairDecidable (o1 o2 : Option Int) (line : Int) :
    Decidable (∃ a b : Int, o1 = some a ∧ o2 = some b ∧ a ≤ line ∧ line ≤ b) :=
  match o1, o2 with
  | some a, some b =>
    decidable_of_iff (a ≤ line ∧ line ≤ b)
      (by
        constructor
        · rintro ⟨h1, h2⟩
          exact ⟨a, b, rfl, rfl, h1, h2⟩
        · rintro ⟨x, y, hx, hy, h1, h2⟩
          cases hx
          cases hy
          exact ⟨h1, h2⟩)
  | some _, none =>
    isFalse (by rintro ⟨x, y, _, hy, _, _⟩; cases hy)
  | none, _ =>
    isFalse (by rintro ⟨x, y, hx, _⟩; cases hx)

/-- Claim-side membership predicate for the detected count: the mutant is
in a file whose path contains some range's `fileName` as a substring, its
start line lies within some range (inclusive at both ends, not
necessarily a range whose `fileName` matched), and its status is exactly
`"Killed"`. -/
def specMutantCounted (locs : List LocationRange) (path : String)
    (m : MutantResult) : Prop :=
  (∃ L ∈ locs, L.fileName.data <:+: path.data) ∧
  (∃ L ∈ locs, ∃ a b : Int, L.startLine = some a ∧ L.endLine = some b ∧
    a ≤ m.location.start.line ∧ m.location.start.line ≤ b) ∧
  m.status = "Killed"

instance specMutantCountedDecidable (locs : List LocationRange) (path : String)
    (m : MutantResult) : Decidable (specMutantCounted locs path m) := by
  unfold specMutantCounted
  infer_instance

/-- Claim-side detected count: the number of mutants in the report
satisfying `specMutantCounted`. -/
def specDetectedCount (locs : List LocationRange) (res : MutationTestResult) : Nat :=
  (res.files.map (fun file =>
    (file.2.mutants.filter (fun m =>
      decide (specMutantCounted locs file.1 m))).length)).sum

/-! ### Concrete inputs used in witnesses and counterexamples -/

/-- The end-to-end example unit of the specification (§8): breakpoints
`[{0,0},{3,5},{6,10}]`, location `"foo.ts:1-5"`. -/
def unitU : GradedUnit :=
  { name := "U"
    breakPoints := [⟨0, 0⟩, ⟨3, 5⟩, ⟨6, 10⟩]
    locations := ["foo.ts:1-5"] }

/-- The end-to-end example report of the specification (§8): file
`"src/foo.ts"` with 6 mutants at lines 1–5, 4 `"Killed"`, 2 `"Survived"`. -/
def reportU : MutationTestResult :=
  { files := [("src/foo.ts",
      { mutants := [
          { status := "Killed", location := { start := { line := 1 } } },
          { status := "Killed", location := { start := { line := 2 } } },
          { status := "Killed", location := { start := { line := 3 } } },
          { status := "Killed", location := { start := { line := 4 } } },
          { status := "Survived", location := { start := { line := 5 } } },
          { status := "Survived", location := { start := { line := 5 } } }] })] }

/-- A unit with strictly ascending thresholds but decreasing points,
`[{0,10},{5,5}]` — the configuration the specification itself calls
"accepted structurally" (§8). -/
def unitV : GradedUnit :=
  { name := "V"
    breakPoints := [⟨0, 10⟩, ⟨5, 5⟩]
    locations := ["a.ts:1-5"] }

/-- An empty mutation report: zero detected mutants for any unit. -/
def reportZero : MutationTestResult := { files := [] }

/-- A report granting `unitV` five killed mutants. -/
def reportFive : MutationTestResult :=
  { files := [("a.ts",
      { mutants := [
          { status := "Killed", location := { start := { line := 1 } } },
          { status := "Killed", location := { start := { line := 2 } } },
          { status := "Killed", location := { start := { line := 3 } } },
          { status := "Killed", location := { start := { line := 4 } } },
          { status := "Killed", location := { start := { line := 5 } } }] })] }

/-- A unit whose single breakpoint has a negative threshold, and a unit
with no breakpoints at all. -/
def unitEmptyBP : GradedUnit :=
  { name := "E", breakPoints := [], locations := ["a.ts:1"] }



/-- Parsed form of `unitU`'s (and `unitV`'s shape of) location list. -/
def locsU : List LocationRange :=
  [{ fileName := "foo.ts", startLine := some 1, endLine := some 5 }]

/-- The `TestResult` that the `src/main.ts` grader returns on the
specification's end-to-end example (note the `4/0` summary caused by the
in-place reversal). -/
def trU : TestResult :=
  { score := 5, max_score := some 10, name := "U", output := "Faults detected: 4/0" }

/-- `unitU` as left behind by the `src/main.ts` grader: breakpoints
reversed in place. -/
def unitUAfter : GradedUnit :=
  { name := "U"
    breakPoints := [⟨6, 10⟩, ⟨3, 5⟩, ⟨0, 0⟩]
    locations := ["foo.ts:1-5"] }



/-- Parsed form of `unitV`'s location list. -/
def locsV : List LocationRange :=
  [{ fileName := "a.ts", startLine := some 1, endLine := some 5 }]

/-- The `TestResult` of `unitU` on the empty report. -/
def trU0 : TestResult :=
  { score := 0, max_score := some 10, name := "U", output := "Faults detected: 0/0" }



/-- A unit with a duplicate threshold (rejected by the validator). -/
def unitW1 : GradedUnit :=
  { name := "W", breakPoints := [⟨5, 1⟩, ⟨5, 2⟩], locations := [] }

/-- A unit with out-of-order thresholds (rejected by the validator). -/
def unitW2 : GradedUnit :=
  { name := "W", breakPoints := [⟨5, 1⟩, ⟨2, 2⟩], locations := [] }



/-- The `TestResult` of `unitV` on `reportU` (no file of the report
contains `"a.ts"`, so 0 detected; threshold 0 awards 10). -/
def trV0 : TestResult :=
  { score := 10, max_score := some 10, name := "V", output := "Faults detected: 0/0" }


/-! ### Helper lemmas about the string primitives -/

theorem charsPrefixOf_iff (p s : List Char) : charsPrefixOf p s = true ↔ p <+: s := by
  induction p generalizing s with
  | nil => simp [charsPrefixOf, List.nil_prefix]
  | cons a as ih =>
    cases s with
    | nil => simp [charsPrefixOf]
    | cons b bs => simp [charsPrefixOf, List.cons_prefix_cons, ih]

theorem charsInfixOf_iff (p s : List Char) : charsInfixOf p s = true ↔ p <:+: s := by
  induction s with
  | nil => simp [charsInfixOf, List.isEmpty_iff]
  | cons b bs ih =>
    simp [charsInfixOf, List.infix_cons_iff, charsPrefixOf_iff, ih]

theorem jsIncludes_iff (s pat : String) : jsIncludes s pat = true ↔ pat.data <:+: s.data := by
  simp [jsIncludes, charsInfixOf_iff]

/-! ### Helper lemmas about list scanning and counting -/

theorem find?_reverse_eq_getLast?_filter (p : α → Bool) (l : List α) :
    l.reverse.find? p = (l.filter p).getLast? := by
  induction l with
  | nil => rfl
  | cons a t ih =>
    rw [List.reverse_cons, List.find?_append, ih, List.filter_cons]
    by_cases h : p a = true
    · simp only [h, if_pos rfl]
      cases hf : (t.filter p).getLast? with
      | none =>
        rcases List.getLast?_eq_none_iff.mp hf with hnil
        simp [hnil, List.find?, h]
      | some c =>
        cases hfil : t.filter p with
        | nil => rw [hfil] at hf; simp at hf
        | cons x xs => rw [hfil] at hf; simp [hf]
    · simp only [h]
      simp only [Bool.not_eq_true] at h
      simp [List.find?, h]

theorem getLast?_pairwise_max {R : α → α → Prop} {l : List α} {a : α}
    (hp : l.Pairwise R) (h : l.getLast? = some a) :
    ∀ x ∈ l, x = a ∨ R x a := by
  induction l with
  | nil => simp at h
  | cons b t ih =>
    cases t with
    | nil =>
      simp only [List.getLast?_singleton, Option.some.injEq] at h
      subst h
      intro x hx
      simp at hx
      exact Or.inl hx
    | cons c s =>
      rw [List.getLast?_cons_cons] at h
      have hp2 := List.pairwise_cons.mp hp
      intro x hx
      rcases List.mem_cons.mp hx with rfl | hxm
      · exact Or.inr (hp2.1 a (List.mem_of_getLast?_eq_some h))
      · exact ih hp2.2 h x hxm

theorem pairwise_lt_injOn {f : α → Int} {l : List α}
    (hp : l.Pairwise (fun x y => f x < f y)) :
    ∀ a ∈ l, ∀ b ∈ l, f a = f b → a = b := by
  induction l with
  | nil => simp
  | cons c t ih =>
    have hp2 := List.pairwise_cons.mp hp
    intro a ha b hb hf
    rcases List.mem_cons.mp ha with rfl | ham
    · rcases List.mem_cons.mp hb with rfl | hbm
      · rfl
      · exact absurd hf (ne_of_lt (hp2.1 b hbm))
    · rcases List.mem_cons.mp hb with rfl | hbm
      · exact absurd hf.symm (ne_of_lt (hp2.1 a ham))
      · exact ih hp2.2 a ham b hbm hf

theorem foldl_add_count (p : α → Bool) (l : List α) (acc : Nat) :
    l.foldl (fun a x => if p x then a + 1 else a) acc = acc + (l.filter p).length := by
  induction l generalizing acc with
  | nil => simp
  | cons x t ih =>
    rw [List.foldl_cons, List.filter_cons]
    by_cases h : p x = true
    · rw [if_pos h, if_pos h, ih]
      simp
      omega
    · simp only [Bool.not_eq_true] at h
      simp [h, ih]

theorem foldl_add_map_sum (g : α → Nat) (l : List α) (acc : Nat) :
    l.foldl (fun a x => a + g x) acc = acc + (l.map g).sum := by
  induction l generalizing acc with
  | nil => simp
  | cons x t ih =>
    rw [List.foldl_cons, ih, List.map_cons, List.sum_cons]
    omega

theorem map_sum_filter_zero (q : α → Bool) (g : α → Nat)
    (hz : ∀ x, q x = false → g x = 0) (l : List α) :
    ((l.filter q).map g).sum = (l.map g).sum := by
  induction l with
  | nil => rfl
  | cons x t ih =>
    rw [List.filter_cons]
    by_cases h : q x = true
    · simp [h, ih]
    · simp only [Bool.not_eq_true] at h
      simp [h, ih, hz x h]

theorem jsMathMax_spec (l : List Int) (hne : l ≠ []) :
    ∃ M, jsMathMax l = some M ∧ M ∈ l ∧ ∀ x ∈ l, x ≤ M := by
  induction l with
  | nil => exact absurd rfl hne
  | cons a t ih =>
    cases t with
    | nil =>
      refine ⟨a, rfl, List.mem_singleton_self a, ?_⟩
      intro x hx
      simp at hx
      omega
    | cons b s =>
      rcases ih (by simp) with ⟨M, hM, hmem, hmax⟩
      refine ⟨max a M, ?_, ?_, ?_⟩
      · show (match jsMathMax (b :: s) with
              | none => some a
              | some m => some (max a m)) = some (max a M)
        rw [hM]
      · rcases max_cases a M with ⟨he, _⟩ | ⟨he, _⟩
        · rw [he]; exact List.mem_cons_self a (b :: s)
        · rw [he]; exact List.mem_cons_of_mem a hmem
      · intro x hx
        rcases List.mem_cons.mp hx with rfl | hxm
        · exact le_max_left x M
        · exact le_trans (hmax x hxm) (le_max_right a M)

/-! ### Helper lemmas about the validator and exception-propagating map -/

theorem validateUnitBreakPoints_ok_iff (bps : List BreakPoint) (lastBP : Int)
    (unitName : String) :
    validateUnitBreakPoints lastBP bps unitName = .ok () ↔
      List.Chain' (fun a b : Int => a < b)
        (lastBP :: bps.map (fun bp => bp.minimumMutantsDetected)) := by
  induction bps generalizing lastBP with
  | nil => simp [validateUnitBreakPoints]
  | cons bp rest ih =>
    rw [List.map_cons, List.chain'_cons]
    by_cases h : bp.minimumMutantsDetected ≤ lastBP
    · simp [validateUnitBreakPoints, h]
    · simp only [validateUnitBreakPoints, if_neg h]
      rw [ih]
      constructor
      · intro hc; exact ⟨by omega, hc⟩
      · intro hc; exact hc.2

theorem validateUnitBreakPoints_error (bps : List BreakPoint) (lastBP : Int)
    (unitName : String)
    (h : validateUnitBreakPoints lastBP bps unitName ≠ .ok ()) :
    validateUnitBreakPoints lastBP bps unitName =
      .error (.invalidBreakpointOrdering unitName) := by
  induction bps generalizing lastBP with
  | nil => exact absurd rfl h
  | cons bp rest ih =>
    by_cases hle : bp.minimumMutantsDetected ≤ lastBP
    · simp [validateUnitBreakPoints, hle]
    · simp only [validateUnitBreakPoints, if_neg hle] at h ⊢
      exact ih _ h

theorem validateConfigUnits_ok_iff (units : List GradedUnit) :
    validateConfigUnits units = .ok () ↔
      ∀ u ∈ units, validateUnitBreakPoints (-1) u.breakPoints u.name = .ok () := by
  induction units with
  | nil => simp [validateConfigUnits]
  | cons u rest ih =>
    cases hu : validateUnitBreakPoints (-1) u.breakPoints u.name with
    | error e =>
      simp only [validateConfigUnits, hu]
      constructor
      · intro h; exact absurd h (by simp)
      · intro h
        have := h u (List.mem_cons_self u rest)
        rw [hu] at this
        exact absurd this (by simp)
    | ok v =>
      cases v
      simp only [validateConfigUnits, hu]
      rw [ih]
      constructor
      · intro h x hx
        rcases List.mem_cons.mp hx with rfl | hxm
        · exact hu
        · exact h x hxm
      · intro h x hx
        exact h x (List.mem_cons_of_mem u hx)

theorem mapExcept_ok_spec (g : α → Except ε β) :
    ∀ (l : List α) (ys : List β), mapExcept g l = .ok ys →
      ys.length = l.length ∧
      ∀ i (hi : i < l.length) (hj : i < ys.length),
        g (l.get ⟨i, hi⟩) = .ok (ys.get ⟨i, hj⟩) := by
  intro l
  induction l with
  | nil =>
    intro ys h
    simp only [mapExcept] at h
    cases h
    exact ⟨rfl, by intro i hi; simp at hi⟩
  | cons x xs ih =>
    intro ys h
    simp only [mapExcept] at h
    cases hg : g x with
    | error e => rw [hg] at h; exact absurd h (by simp)
    | ok y =>
      rw [hg] at h
      cases hrest : mapExcept g xs with
      | error e => rw [hrest] at h; exact absurd h (by simp)
      | ok zs =>
        rw [hrest] at h
        cases h
        rcases ih zs hrest with ⟨hlen, hpt⟩
        refine ⟨by simp [hlen], ?_⟩
        intro i hi hj
        cases i with
        | zero => simpa using hg
        | succ k =>
          have hk : k < xs.length := by simpa using hi
          have hk2 : k < zs.length := by simpa using hj
          simpa using hpt k hk hk2

/-! ### Membership characterizations used by the detected-count claim -/

theorem mutatedFileContains_iff (gradedLocations : List LocationRange) (fileName : String) :
    mutatedFileContainsAGradedUnit gradedLocations fileName = true ↔
      ∃ L ∈ gradedLocations, L.fileName.data <:+: fileName.data := by
  unfold mutatedFileContainsAGradedUnit
  rw [List.find?_isSome]
  constructor
  · rintro ⟨L, hL, hinc⟩
    exact ⟨L, hL, (jsIncludes_iff _ _).mp hinc⟩
  · rintro ⟨L, hL, hinf⟩
    exact ⟨L, hL, (jsIncludes_iff _ _).mpr hinf⟩

theorem mutantContains_iff (gradedLocations : List LocationRange) (mutant : MutantResult) :
    mutantContainsThisGradedUnit gradedLocations mutant = true ↔
      ∃ L ∈ gradedLocations, ∃ a b : Int, L.startLine = some a ∧ L.endLine = some b ∧
        a ≤ mutant.location.start.line ∧ mutant.location.start.line ≤ b := by
  unfold mutantContainsThisGradedUnit
  rw [List.find?_isSome]
  constructor
  · rintro ⟨L, hL, hcmp⟩
    rw [Bool.and_eq_true] at hcmp
    rcases hcmp with ⟨h1, h2⟩
    cases ha : L.startLine with
    | none => rw [ha] at h1; simp [jnLe] at h1
    | some a =>
      cases hb : L.endLine with
      | none => rw [hb] at h2; simp [jnGe] at h2
      | some b =>
        rw [ha] at h1; rw [hb] at h2
        simp only [jnLe, decide_eq_true_eq] at h1
        simp only [jnGe, decide_eq_true_eq] at h2
        exact ⟨L, hL, a, b, ha, hb, h1, h2⟩
  · rintro ⟨L, hL, a, b, ha, hb, h1, h2⟩
    refine ⟨L, hL, ?_⟩
    rw [ha, hb]
    simp only [jnLe, jnGe, Bool.and_eq_true, decide_eq_true_eq]
    exact ⟨h1, h2⟩

/-! ### The detected count equals the claim-side count -/

theorem killedFoldl_eq_specFilter (locs : List LocationRange) (path : String)
    (hf : mutatedFileContainsAGradedUnit locs path = true) :
    ∀ (ms : List MutantResult) (acc : Nat),
      (ms.filter (mutantContainsThisGradedUnit locs)).foldl
        (fun a m => if m.status = "Killed" then a + 1 else a) acc
      = acc + (ms.filter (fun m => decide (specMutantCounted locs path m))).length := by
  intro ms
  induction ms with
  | nil => intro acc; simp
  | cons m t ih =>
    intro acc
    rw [List.filter_cons, List.filter_cons]
    by_cases hline : mutantContainsThisGradedUnit locs m = true
    · rw [if_pos hline, List.foldl_cons]
      by_cases hk : m.status = "Killed"
      · have hspec : decide (specMutantCounted locs path m) = true := by
          rw [decide_eq_true_eq]
          exact ⟨(mutatedFileContains_iff locs path).mp hf,
            (mutantContains_iff locs m).mp hline, hk⟩
        rw [if_pos hk, if_pos hspec, ih]
        simp only [List.length_cons]
        omega
      · have hspec : ¬ (decide (specMutantCounted locs path m) = true) := by
          simp only [decide_eq_true_eq, specMutantCounted, not_and]
          intro _ _
          exact hk
        rw [if_neg hk, if_neg hspec, ih]
    · have hspec : ¬ (decide (specMutantCounted locs path m) = true) := by
        simp only [decide_eq_true_eq, specMutantCounted, not_and]
        intro _ hex
        exact absurd ((mutantContains_iff locs m).mpr hex) hline
      rw [if_neg hline, if_neg hspec, ih]

theorem filesFoldl_eq_specSum (locs : List LocationRange) :
    ∀ (fs : List (String × FileResult)) (acc : Nat),
      (fs.filter (fun file => mutatedFileContainsAGradedUnit locs file.1)).foldl
        (fun mutantsFoundSoFar file =>
          mutantsFoundSoFar +
            ((file.2.mutants.filter (mutantContainsThisGradedUnit locs)).foldl
              (fun mutantsFoundThisFile mutant =>
                if mutant.status = "Killed" then mutantsFoundThisFile + 1
                else mutantsFoundThisFile) 0)) acc
      = acc + (fs.map (fun file => (file.2.mutants.filter (fun m =>
          decide (specMutantCounted locs file.1 m))).length)).sum := by
  intro fs
  induction fs with
  | nil => intro acc; simp
  | cons f t ih =>
    intro acc
    rw [List.filter_cons, List.map_cons, List.sum_cons]
    by_cases hf : mutatedFileContainsAGradedUnit locs f.1 = true
    · rw [if_pos hf, List.foldl_cons, ih,
        killedFoldl_eq_specFilter locs f.1 hf f.2.mutants 0]
      omega
    · have hzero : (f.2.mutants.filter (fun m =>
          decide (specMutantCounted locs f.1 m))).length = 0 := by
        rw [List.length_eq_zero, List.filter_eq_nil_iff]
        intro m _
        simp only [decide_eq_true_eq, specMutantCounted, not_and]
        intro hex
        exact absurd ((mutatedFileContains_iff locs f.1).mpr hex) hf
      rw [if_neg hf, ih, hzero]
      omega

/-- The source's detected-mutant count coincides with the claim-side
count of report mutants satisfying `specMutantCounted`. -/
theorem mutantsDetected_eq_specDetectedCount (locs : List LocationRange)
    (res : MutationTestResult) :
    mutantsDetected locs res = specDetectedCount locs res := by
  unfold mutantsDetected specDetectedCount
  rw [filesFoldl_eq_specSum]
  omega

/-! ### Success-case shapes of the two graders -/

theorem gradeMutationUnit_ok_shape (u : GradedUnit) (res : MutationTestResult)
    (locs : List LocationRange)
    (hlocs : mapExcept extractLocationInformation u.locations = .ok locs)
    (lastBP : BreakPoint) (hlast : u.breakPoints.reverse.getLast? = some lastBP) :
    gradeMutationUnit u res =
      .ok ({ score :=
              match u.breakPoints.reverse.find? (fun bp =>
                  decide (bp.minimumMutantsDetected ≤ (mutantsDetected locs res : Int))) with
              | some bp => bp.pointsToAward
              | none => 0
             max_score := jsMathMax (u.breakPoints.map (fun bp => bp.pointsToAward))
             name := u.name
             output := "Faults detected: " ++ natToString (mutantsDetected locs res) ++ "/" ++
               intToString lastBP.minimumMutantsDetected },
           { u with breakPoints := u.breakPoints.reverse }) := by
  simp only [gradeMutationUnit, hlocs, hlast]

theorem gradeMutationUnitFixed_ok_shape (u : GradedUnit) (res : MutationTestResult)
    (locs : List LocationRange)
    (hlocs : mapExcept extractLocationInformation u.locations = .ok locs)
    (lastBP : BreakPoint) (hlast : u.breakPoints.getLast? = some lastBP) :
    gradeMutationUnitFixed u res =
      .ok { score :=
              match (u.breakPoints ++ []).reverse.find? (fun bp : BreakPoint =>
                  decide (bp.minimumMutantsDetected ≤ (mutantsDetected locs res : Int))) with
              | some bp => bp.pointsToAward
              | none => 0
            max_score := jsMathMax (u.breakPoints.map (fun bp => bp.pointsToAward))
            name := u.name
            output := "Faults detected: " ++ natToString (mutantsDetected locs res) ++ "/" ++
              intToString lastBP.minimumMutantsDetected } := by
  simp only [gradeMutationUnitFixed, hlocs, hlast]

/-! ### Breakpoint resolution characterization -/

theorem find?_qualifying_spec (bps : List BreakPoint) (d : Int)
    (hasc : bps.Pairwise (fun a b =>
      a.minimumMutantsDetected < b.minimumMutantsDetected)) :
    (∃ bp, bps.reverse.find? (fun bp =>
        decide (bp.minimumMutantsDetected ≤ d)) = some bp ∧
      bp ∈ bps ∧ bp.minimumMutantsDetected ≤ d ∧
      ∀ bp2 ∈ bps, bp2.minimumMutantsDetected ≤ d →
        bp2.minimumMutantsDetected ≤ bp.minimumMutantsDetected) ∨
    (bps.reverse.find? (fun bp => decide (bp.minimumMutantsDetected ≤ d)) = none ∧
      ∀ bp ∈ bps, d < bp.minimumMutantsDetected) := by
  rw [find?_reverse_eq_getLast?_filter]
  cases h : (bps.filter (fun bp => decide (bp.minimumMutantsDetected ≤ d))).getLast? with
  | none =>
    refine Or.inr ⟨rfl, ?_⟩
    have hnil := List.getLast?_eq_none_iff.mp h
    rw [List.filter_eq_nil_iff] at hnil
    intro bp hbp
    have := hnil bp hbp
    simp only [decide_eq_true_eq] at this
    omega
  | some bp =>
    refine Or.inl ⟨bp, rfl, ?_, ?_, ?_⟩
    · exact (List.mem_filter.mp (List.mem_of_getLast?_eq_some h)).1
    · have := (List.mem_filter.mp (List.mem_of_getLast?_eq_some h)).2
      simpa using this
    · intro bp2 hbp2 hle2
      have hmem2 : bp2 ∈ bps.filter (fun bp =>
          decide (bp.minimumMutantsDetected ≤ d)) :=
        List.mem_filter.mpr ⟨hbp2, by simpa using hle2⟩
      have hpfil := hasc.filter (fun bp => decide (bp.minimumMutantsDetected ≤ d))
      rcases getLast?_pairwise_max hpfil h bp2 hmem2 with rfl | hlt
      · exact le_refl _
      · exact le_of_lt hlt

/-- C1: for a `GradedUnit` with a non-empty strictly ascending breakpoint
table, the score returned by `gradeMutationUnit` is the `pointsToAward`
of the highest-threshold breakpoint whose `minimumMutantsDetected` is at
most the detected count, and 0 when the count is below every threshold; a
count exactly equal to a threshold awards that breakpoint's points. -/
theorem gradeMutationUnit_awards_highest_qualifying_breakpoint
    (u : GradedUnit) (res : MutationTestResult) (locs : List LocationRange)
    (tr : TestResult) (uAfter : GradedUnit)
    (hne : u.breakPoints ≠ [])
    (hasc : u.breakPoints.Pairwise (fun a b =>
      a.minimumMutantsDetected < b.minimumMutantsDetected))
    (hlocs : mapExcept extractLocationInformation u.locations = .ok locs)
    (hok : gradeMutationUnit u res = .ok (tr, uAfter)) :
    ((∃ bp ∈ u.breakPoints,
        bp.minimumMutantsDetected ≤ (mutantsDetected locs res : Int) ∧
        tr.score = bp.pointsToAward ∧
        ∀ bp2 ∈ u.breakPoints,
          bp2.minimumMutantsDetected ≤ (mutantsDetected locs res : Int) →
          bp2.minimumMutantsDetected ≤ bp.minimumMutantsDetected) ∨
      (tr.score = 0 ∧ ∀ bp ∈ u.breakPoints,
        (mutantsDetected locs res : Int) < bp.minimumMutantsDetected)) ∧
    (∀ bp ∈ u.breakPoints,
      bp.minimumMutantsDetected = (mutantsDetected locs res : Int) →
      tr.score = bp.pointsToAward) := by
  obtain ⟨lastBP, hlast⟩ : ∃ x, u.breakPoints.reverse.getLast? = some x := by
    cases hl : u.breakPoints.reverse.getLast? with
    | none =>
      have := List.getLast?_eq_none_iff.mp hl
      rw [List.reverse_eq_nil_iff] at this
      exact absurd this hne
    | some x => exact ⟨x, rfl⟩
  rw [gradeMutationUnit_ok_shape u res locs hlocs lastBP hlast] at hok
  injection hok with hpair
  injection hpair with h1 h2
  rcases find?_qualifying_spec u.breakPoints (mutantsDetected locs res : Int) hasc with
    ⟨bp, hfind, hmem, hle, hmax⟩ | ⟨hfind, hall⟩
  · have hscore : tr.score = bp.pointsToAward := by
      rw [← h1]
      simp [hfind]
    constructor
    · exact Or.inl ⟨bp, hmem, hle, hscore, hmax⟩
    · intro bp2 hbp2 heq
      have ha : bp2.minimumMutantsDetected ≤ bp.minimumMutantsDetected :=
        hmax bp2 hbp2 (le_of_eq heq)
      have hb : bp.minimumMutantsDetected ≤ bp2.minimumMutantsDetected := by
        rw [heq]; exact hle
      have hbe : bp = bp2 :=
        pairwise_lt_injOn hasc bp hmem bp2 hbp2 (le_antisymm hb ha)
      rw [hscore, hbe]
  · have hscore : tr.score = 0 := by
      rw [← h1]
      simp [hfind]
    constructor
    · exact Or.inr ⟨hscore, hall⟩
    · intro bp2 hbp2 heq
      have := hall bp2 hbp2
      omega

/-- C1 witness: the theorem applied to the specification's end-to-end
example (detected count 4, awarded points 5 from breakpoint `{3,5}`). -/
theorem gradeMutationUnit_awards_highest_qualifying_breakpoint_witness :
    ((∃ bp ∈ unitU.breakPoints,
        bp.minimumMutantsDetected ≤ (mutantsDetected locsU reportU : Int) ∧
        trU.score = bp.pointsToAward ∧
        ∀ bp2 ∈ unitU.breakPoints,
          bp2.minimumMutantsDetected ≤ (mutantsDetected locsU reportU : Int) →
          bp2.minimumMutantsDetected ≤ bp.minimumMutantsDetected) ∨
      (trU.score = 0 ∧ ∀ bp ∈ unitU.breakPoints,
        (mutantsDetected locsU reportU : Int) < bp.minimumMutantsDetected)) ∧
    (∀ bp ∈ unitU.breakPoints,
      bp.minimumMutantsDetected = (mutantsDetected locsU reportU : Int) →
      trU.score = bp.pointsToAward) :=
  gradeMutationUnit_awards_highest_qualifying_breakpoint unitU reportU locsU trU unitUAfter
    (by decide) (by decide) (by decide) (by decide)

/-- C2: the detected count used by `gradeMutationUnit` equals the number
of report mutants whose file path contains some parsed range's
`fileName` as a substring, whose start line lies inside some range
(inclusive), and whose status is exactly `"Killed"`. -/
theorem detectedCount_matches_spec (u : GradedUnit) (res : MutationTestResult)
    (locs : List LocationRange)
    (hlocs : mapExcept extractLocationInformation u.locations = .ok locs) :
    mutantsDetected locs res = specDetectedCount locs res :=
  mutantsDetected_eq_specDetectedCount locs res

/-- C2 witness: the detected count of the end-to-end example is 4 on both
sides. -/
theorem detectedCount_matches_spec_witness :
    mutantsDetected locsU reportU = specDetectedCount locsU reportU ∧
    mutantsDetected locsU reportU = 4 :=
  ⟨detectedCount_matches_spec unitU reportU locsU (by decide), by decide⟩

/-! ### Monotonicity of the awarded score -/

/-- C3 counterexample: `unitV`'s table `[{0,10},{5,5}]` passes the
validator (thresholds strictly ascend), yet detected count 0 awards 10
while detected count 5 awards only 5 — the awarded score is not a
non-decreasing function of the detected count. -/
theorem score_not_monotone_counterexample :
    validateConfig { gradedUnits := [unitV], submissionFiles := [] } = .ok () ∧
    mapExcept extractLocationInformation unitV.locations = .ok locsV ∧
    mutantsDetected locsV reportZero = 0 ∧
    mutantsDetected locsV reportFive = 5 ∧
    (gradeMutationUnit unitV reportZero).map (fun pr => pr.1.score) = .ok 10 ∧
    (gradeMutationUnit unitV reportFive).map (fun pr => pr.1.score) = .ok 5 ∧
    ¬ ((10 : Int) ≤ 5) := by
  decide

theorem pairwise_points_mono {l : List BreakPoint}
    (hasc : l.Pairwise (fun a b =>
      a.minimumMutantsDetected < b.minimumMutantsDetected))
    (hpts : l.Pairwise (fun a b => a.pointsToAward ≤ b.pointsToAward)) :
    ∀ a ∈ l, ∀ b ∈ l, a.minimumMutantsDetected ≤ b.minimumMutantsDetected →
      a.pointsToAward ≤ b.pointsToAward := by
  induction l with
  | nil => simp
  | cons c t ih =>
    have hasc2 := List.pairwise_cons.mp hasc
    have hpts2 := List.pairwise_cons.mp hpts
    intro a ha b hb hmin
    rcases List.mem_cons.mp ha with rfl | ham
    · rcases List.mem_cons.mp hb with rfl | hbm
      · exact le_refl _
      · exact hpts2.1 b hbm
    · rcases List.mem_cons.mp hb with rfl | hbm
      · have := hasc2.1 a ham
        omega
      · exact ih hasc2.2 hpts2.2 a ham b hbm hmin

/-- C3 amended: with a strictly ascending threshold table *and*
`pointsToAward` values that are non-negative and non-decreasing in
declared order, the awarded score is a non-decreasing function of the
detected-mutant count. -/
theorem score_monotone_of_points_monotone
    (u : GradedUnit) (res1 res2 : MutationTestResult) (locs : List LocationRange)
    (tr1 tr2 : TestResult) (u1 u2 : GradedUnit)
    (hasc : u.breakPoints.Pairwise (fun a b =>
      a.minimumMutantsDetected < b.minimumMutantsDetected))
    (hpts : u.breakPoints.Pairwise (fun a b => a.pointsToAward ≤ b.pointsToAward))
    (hnn : ∀ bp ∈ u.breakPoints, 0 ≤ bp.pointsToAward)
    (hlocs : mapExcept extractLocationInformation u.locations = .ok locs)
    (h1 : gradeMutationUnit u res1 = .ok (tr1, u1))
    (h2 : gradeMutationUnit u res2 = .ok (tr2, u2))
    (hd : mutantsDetected locs res1 ≤ mutantsDetected locs res2) :
    tr1.score ≤ tr2.score := by
  obtain ⟨lastBP, hlast⟩ : ∃ x, u.breakPoints.reverse.getLast? = some x := by
    cases hl : u.breakPoints.reverse.getLast? with
    | none =>
      simp only [gradeMutationUnit, hlocs] at h1
      rw [hl] at h1
      simp at h1
    | some x => exact ⟨x, rfl⟩
  rw [gradeMutationUnit_ok_shape u res1 locs hlocs lastBP hlast] at h1
  rw [gradeMutationUnit_ok_shape u res2 locs hlocs lastBP hlast] at h2
  injection h1 with hpair1
  injection hpair1 with htr1 hu1
  injection h2 with hpair2
  injection hpair2 with htr2 hu2
  have hdz : (mutantsDetected locs res1 : Int) ≤ (mutantsDetected locs res2 : Int) := by
    exact_mod_cast hd
  rcases find?_qualifying_spec u.breakPoints (mutantsDetected locs res1 : Int) hasc with
    ⟨bp1, hfind1, hmem1, hle1, _⟩ | ⟨hfind1, _⟩
  · rcases find?_qualifying_spec u.breakPoints (mutantsDetected locs res2 : Int) hasc with
      ⟨bp2, hfind2, hmem2, _, hmax2⟩ | ⟨_, hall2⟩
    · have hminle : bp1.minimumMutantsDetected ≤ bp2.minimumMutantsDetected :=
        hmax2 bp1 hmem1 (le_trans hle1 hdz)
      have hple := pairwise_points_mono hasc hpts bp1 hmem1 bp2 hmem2 hminle
      rw [← htr1, ← htr2]
      simpa [hfind1, hfind2] using hple
    · have := hall2 bp1 hmem1
      omega
  · rcases find?_qualifying_spec u.breakPoints (mutantsDetected locs res2 : Int) hasc with
      ⟨bp2, hfind2, hmem2, _, _⟩ | ⟨hfind2, _⟩
    · have := hnn bp2 hmem2
      rw [← htr1, ← htr2]
      simpa [hfind1, hfind2] using this
    · rw [← htr1, ← htr2]
      simp [hfind1, hfind2]

/-- C3 amended witness: `unitU` (points 0 ≤ 5 ≤ 10) on the empty report
versus the end-to-end report. -/
theorem score_monotone_of_points_monotone_witness : trU0.score ≤ trU.score :=
  score_monotone_of_points_monotone unitU reportZero reportU locsU trU0 trU
    unitUAfter unitUAfter (by decide) (by decide) (by decide) (by decide)
    (by decide) (by decide) (by decide)

/-! ### Validator characterization -/

theorem chain'_neg_one_cons (mins : List Int) (h0 : ∀ x ∈ mins, 0 ≤ x) :
    List.Chain' (fun a b : Int => a < b) ((-1) :: mins) ↔
      List.Chain' (fun a b : Int => a < b) mins := by
  cases mins with
  | nil => simp
  | cons m t =>
    rw [List.chain'_cons]
    constructor
    · intro h; exact h.2
    · intro h
      refine ⟨?_, h⟩
      have := h0 m (List.mem_cons_self m t)
      omega

/-- C4: for configurations whose thresholds are non-negative (as the
data model requires), `validateConfig` succeeds exactly when every unit's
breakpoints have strictly increasing `minimumMutantsDetected` in declared
order; any failure carries `InvalidBreakpointOrdering`.  The condition
never inspects `pointsToAward`, so decreasing point values alone are
accepted. -/
theorem validateConfig_ok_iff_strictly_ascending (config : GradingConfig)
    (hnn : ∀ u ∈ config.gradedUnits, ∀ bp ∈ u.breakPoints,
      0 ≤ bp.minimumMutantsDetected) :
    (validateConfig config = .ok () ↔
      ∀ u ∈ config.gradedUnits, List.Chain' (fun a b : BreakPoint =>
        a.minimumMutantsDetected < b.minimumMutantsDetected) u.breakPoints) ∧
    (∀ e, validateConfig config = .error e →
      ∃ name, e = .invalidBreakpointOrdering name) := by
  constructor
  · rw [validateConfig, validateConfigUnits_ok_iff]
    constructor
    · intro h u hu
      have := (validateUnitBreakPoints_ok_iff u.breakPoints (-1) u.name).mp (h u hu)
      rw [chain'_neg_one_cons _ (by
        intro x hx
        rcases List.mem_map.mp hx with ⟨bp, hbp, rfl⟩
        exact hnn u hu bp hbp)] at this
      exact (List.chain'_map (fun bp : BreakPoint => bp.minimumMutantsDetected)).mp this
    · intro h u hu
      rw [validateUnitBreakPoints_ok_iff, chain'_neg_one_cons _ (by
        intro x hx
        rcases List.mem_map.mp hx with ⟨bp, hbp, rfl⟩
        exact hnn u hu bp hbp)]
      exact (List.chain'_map (fun bp : BreakPoint => bp.minimumMutantsDetected)).mpr (h u hu)
  · intro e _
    cases e with
    | invalidBreakpointOrdering name => exact ⟨name, rfl⟩

/-- C4 witness: the specification's own examples — decreasing points
`[{0,10},{5,5}]` are accepted; a duplicate threshold `[{5,1},{5,2}]` and
an out-of-order pair `[{5,1},{2,2}]` are rejected. -/
theorem validateConfig_ok_iff_strictly_ascending_witness :
    validateConfig { gradedUnits := [unitV], submissionFiles := [] } = .ok () ∧
    validateConfig { gradedUnits := [unitW1], submissionFiles := [] } ≠ .ok () ∧
    validateConfig { gradedUnits := [unitW2], submissionFiles := [] } ≠ .ok () := by
  refine ⟨?_, ?_, ?_⟩
  · refine (validateConfig_ok_iff_strictly_ascending
      { gradedUnits := [unitV], submissionFiles := [] } (by decide)).1.mpr ?_
    intro u hu
    rcases List.mem_singleton.mp hu with rfl
    rw [show unitV.breakPoints = [⟨0, 10⟩, ⟨5, 5⟩] from rfl, List.chain'_cons]
    exact ⟨by decide, List.chain'_singleton _⟩
  · intro h
    have := (validateConfig_ok_iff_strictly_ascending
      { gradedUnits := [unitW1], submissionFiles := [] } (by decide)).1.mp h
    have h2 := this _ (List.mem_singleton_self _)
    rw [show unitW1.breakPoints = [⟨5, 1⟩, ⟨5, 2⟩] from rfl, List.chain'_cons] at h2
    exact absurd h2.1 (by decide)
  · intro h
    have := (validateConfig_ok_iff_strictly_ascending
      { gradedUnits := [unitW2], submissionFiles := [] } (by decide)).1.mp h
    have h2 := this _ (List.mem_singleton_self _)
    rw [show unitW2.breakPoints = [⟨5, 1⟩, ⟨2, 2⟩] from rfl, List.chain'_cons] at h2
    exact absurd h2.1 (by decide)

/-! ### The summary string and the in-place reversal -/

/-- C6 (divergence evidence): on the specification's end-to-end example,
the `src/main.ts` grader's summary reads `4/0` — the threshold of the
*first* declared breakpoint — because `reverse()` mutated the array
before `breakPoints[breakPoints.length - 1]` was read; the revised
grader produces the expected `4/6`. -/
theorem summary_reports_first_declared_threshold :
    (gradeMutationUnit unitU reportU).map (fun pr => pr.1.output) =
      .ok "Faults detected: 4/0" ∧
    (gradeMutationUnitFixed unitU reportU).map (fun tr => tr.output) =
      .ok "Faults detected: 4/6" ∧
    "Faults detected: 4/0" ≠ "Faults detected: 4/6" := by
  decide

/-- C6: the revised grader's summary is
`Faults detected: <detected>/<last declared threshold>`. -/
theorem summaryFixed_last_declared (u : GradedUnit) (res : MutationTestResult)
    (locs : List LocationRange) (tr : TestResult) (lastBP : BreakPoint)
    (hlocs : mapExcept extractLocationInformation u.locations = .ok locs)
    (hlast : u.breakPoints.getLast? = some lastBP)
    (hok : gradeMutationUnitFixed u res = .ok tr) :
    tr.output = "Faults detected: " ++ natToString (mutantsDetected locs res) ++ "/" ++
      intToString lastBP.minimumMutantsDetected := by
  rw [gradeMutationUnitFixed_ok_shape u res locs hlocs lastBP hlast] at hok
  injection hok with htr
  rw [← htr]

/-- C6 auxiliary witness: the revised-grader summary lemma applied to the
end-to-end example. -/
theorem summaryFixed_last_declared_witness :
    trU.output = "Faults detected: 4/0" ∧
    (gradeMutationUnitFixed unitU reportU).map (fun tr => tr.output) =
      .ok ("Faults detected: " ++ natToString (mutantsDetected locsU reportU) ++ "/" ++
        intToString (6 : Int)) := by
  constructor
  · decide
  · have h := summaryFixed_last_declared unitU reportU locsU
      { score := 5, max_score := some 10, name := "U", output := "Faults detected: 4/6" }
      ⟨6, 10⟩ (by decide) (by decide) (by decide)
    rw [show (gradeMutationUnitFixed unitU reportU).map (fun tr => tr.output) =
      .ok ("Faults detected: 4/6") from by decide]
    exact congrArg Except.ok h

/-- C7 (divergence evidence): grading `unitU` with the `src/main.ts`
grader hands back the unit with its stored breakpoint sequence reversed:
the declared order `[{0,0},{3,5},{6,10}]` has become
`[{6,10},{3,5},{0,0}]`. -/
theorem gradeMutationUnit_mutates_breakpoints :
    (gradeMutationUnit unitU reportU).map (fun pr => pr.2.breakPoints) =
      .ok [⟨6, 10⟩, ⟨3, 5⟩, ⟨0, 0⟩] ∧
    ([⟨6, 10⟩, ⟨3, 5⟩, ⟨0, 0⟩] : List BreakPoint) ≠ unitU.breakPoints := by
  decide

/-! ### max_score is the maximum of the points -/

/-- C8: for a unit with at least one breakpoint, the returned `max_score`
is the maximum `pointsToAward` over all of the unit's breakpoints,
whatever their order. -/
theorem max_score_is_max_points (u : GradedUnit) (res : MutationTestResult)
    (tr : TestResult) (uAfter : GradedUnit)
    (hne : u.breakPoints ≠ [])
    (hok : gradeMutationUnit u res = .ok (tr, uAfter)) :
    ∃ M : Int, tr.max_score = some M ∧
      M ∈ u.breakPoints.map (fun bp => bp.pointsToAward) ∧
      ∀ p ∈ u.breakPoints.map (fun bp => bp.pointsToAward), p ≤ M := by
  cases hml : mapExcept extractLocationInformation u.locations with
  | error e =>
    rw [gradeMutationUnit, hml] at hok
    exact absurd hok (by simp)
  | ok locs =>
    obtain ⟨lastBP, hlast⟩ : ∃ x, u.breakPoints.reverse.getLast? = some x := by
      cases hl : u.breakPoints.reverse.getLast? with
      | none =>
        simp only [gradeMutationUnit, hml] at hok
        rw [hl] at hok
        simp at hok
      | some x => exact ⟨x, rfl⟩
    rw [gradeMutationUnit_ok_shape u res locs hml lastBP hlast] at hok
    injection hok with hpair
    injection hpair with htr _
    rcases jsMathMax_spec (u.breakPoints.map (fun bp => bp.pointsToAward))
      (by simpa using hne) with ⟨M, hM, hmem, hmax⟩
    refine ⟨M, ?_, hmem, hmax⟩
    rw [← htr]
    exact hM

/-- C8 witness: on the end-to-end example `max_score = 10`, the maximum
of the point values `[0, 5, 10]`. -/
theorem max_score_is_max_points_witness :
    ∃ M : Int, trU.max_score = some M ∧
      M ∈ unitU.breakPoints.map (fun bp => bp.pointsToAward) ∧
      ∀ p ∈ unitU.breakPoints.map (fun bp => bp.pointsToAward), p ≤ M :=
  max_score_is_max_points unitU reportU trU unitUAfter (by decide) (by decide)

/-! ### The report aggregator -/

/-- C9: when every unit grades successfully, `gradeStrykerResults`
returns exactly one `TestResult` per graded unit, in declared order, each
equal to `gradeMutationUnit` applied to that unit alone. -/
theorem gradeStrykerResults_one_per_unit (schema : GradingConfig)
    (res : MutationTestResult) (trs : List TestResult)
    (h : mapExcept (fun gradedUnit =>
        match gradeMutationUnit gradedUnit res with
        | .error e => .error e
        | .ok pr => .ok pr.1) schema.gradedUnits = .ok trs) :
    gradeStrykerResults schema res =
      .ok { output := some "", stdout_visibility := "hidden",
            tests := some trs, score := none } ∧
    trs.length = schema.gradedUnits.length ∧
    ∀ i (hi : i < schema.gradedUnits.length) (hj : i < trs.length),
      ∃ uAfter, gradeMutationUnit (schema.gradedUnits.get ⟨i, hi⟩) res =
        .ok (trs.get ⟨i, hj⟩, uAfter) := by
  refine ⟨?_, ?_, ?_⟩
  · rw [gradeStrykerResults, h]
  · exact (mapExcept_ok_spec _ _ _ h).1
  · intro i hi hj
    have hg := (mapExcept_ok_spec _ _ _ h).2 i hi hj
    cases hgr : gradeMutationUnit (schema.gradedUnits.get ⟨i, hi⟩) res with
    | error e =>
      rw [hgr] at hg
      exact absurd hg (by simp)
    | ok pr =>
      rw [hgr] at hg
      simp only [Except.ok.injEq] at hg
      exact ⟨pr.2, by rw [← hg]⟩

/-- C9 witness: a two-unit configuration graded against the end-to-end
report yields `[trU, trV0]` in declared order. -/
theorem gradeStrykerResults_one_per_unit_witness :
    gradeStrykerResults { gradedUnits := [unitU, unitV], submissionFiles := [] } reportU =
      .ok { output := some "", stdout_visibility := "hidden",
            tests := some [trU, trV0], score := none } :=
  (gradeStrykerResults_one_per_unit
    { gradedUnits := [unitU, unitV], submissionFiles := [] } reportU [trU, trV0]
    (by decide)).1

/-! ### Empty breakpoint tables -/

/-- C10: the validator accepts a unit with an empty breakpoint table, but
`gradeMutationUnit` (with parseable locations) succeeds exactly when the
table is non-empty; on an empty table the
`breakPoints[breakPoints.length - 1]` read is out of bounds and the
grader throws. -/
theorem gradeMutationUnit_needs_nonempty_breakpoints (u : GradedUnit)
    (res : MutationTestResult) (locs : List LocationRange)
    (hlocs : mapExcept extractLocationInformation u.locations = .ok locs) :
    validateConfigUnits [{ name := u.name, breakPoints := [], locations := u.locations }] = .ok () ∧
    ((∃ pr, gradeMutationUnit u res = .ok pr) ↔ u.breakPoints ≠ []) ∧
    (u.breakPoints = [] → gradeMutationUnit u res = .error .typeErrorUndefined) := by
  refine ⟨rfl, ⟨?_, ?_⟩, ?_⟩
  · rintro ⟨pr, hok⟩ hnil
    simp only [gradeMutationUnit, hlocs] at hok
    rw [hnil] at hok
    simp at hok
  · intro hne
    obtain ⟨lastBP, hlast⟩ : ∃ x, u.breakPoints.reverse.getLast? = some x := by
      cases hl : u.breakPoints.reverse.getLast? with
      | none =>
        have := List.getLast?_eq_none_iff.mp hl
        rw [List.reverse_eq_nil_iff] at this
        exact absurd this hne
      | some x => exact ⟨x, rfl⟩
    exact ⟨_, gradeMutationUnit_ok_shape u res locs hlocs lastBP hlast⟩
  · intro hnil
    simp only [gradeMutationUnit, hlocs]
    rw [hnil]
    rfl

/-- C10 witness: the unit `E` (no breakpoints, location `"a.ts:1"`)
passes validation yet makes the grader throw on any report. -/
theorem gradeMutationUnit_needs_nonempty_breakpoints_witness :
    validateConfigUnits [⟨unitEmptyBP.name, [], unitEmptyBP.locations⟩] = .ok () ∧
    gradeMutationUnit unitEmptyBP reportZero = .error .typeErrorUndefined := by
  have h := gradeMutationUnit_needs_nonempty_breakpoints unitEmptyBP reportZero
    [{ fileName := "a.ts", startLine := some 1, endLine := some 1 }] (by decide)
  exact ⟨h.1, h.2.2 rfl⟩

/-! ### Decimal rendering and parsing round-trip -/

theorem digitChar_props (m : Nat) (h : m < 10) :
    (digitChar m).isDigit = true ∧ (digitChar m).isWhitespace = false ∧
    ¬ digitChar m = '-' ∧ ¬ digitChar m = '+' ∧ ¬ digitChar m = ':' ∧
    (digitChar m).toNat = 48 + m := by
  interval_cases m <;> decide

theorem natDigitsFuel_spec : ∀ (fuel n : Nat), n < fuel →
    natDigitsFuel fuel n ≠ [] ∧
    (∀ c ∈ natDigitsFuel fuel n, ∃ m, m < 10 ∧ c = digitChar m) ∧
    (natDigitsFuel fuel n).foldl (fun acc ch => acc * 10 + (ch.toNat - 48)) 0 = n := by
  intro fuel
  induction fuel with
  | zero => intro n h; omega
  | succ f ih =>
    intro n h
    by_cases h10 : n < 10
    · refine ⟨by simp [natDigitsFuel, h10], ?_, ?_⟩
      · intro c hc
        simp only [natDigitsFuel, if_pos h10, List.mem_singleton] at hc
        exact ⟨n, h10, hc⟩
      · have ht := (digitChar_props n h10).2.2.2.2.2
        simp only [natDigitsFuel, if_pos h10, List.foldl_cons, List.foldl_nil]
        omega
    · have hdiv : n / 10 < f := by
        have := Nat.div_lt_self (by omega : 0 < n) (by omega : 1 < 10)
        omega
      obtain ⟨hne, hdig, hval⟩ := ih (n / 10) hdiv
      have hmod : n % 10 < 10 := Nat.mod_lt _ (by omega)
      refine ⟨by simp [natDigitsFuel, h10], ?_, ?_⟩
      · intro c hc
        simp only [natDigitsFuel, if_neg h10] at hc
        rcases List.mem_append.mp hc with hc1 | hc2
        · exact hdig c hc1
        · rw [List.mem_singleton] at hc2
          exact ⟨n % 10, hmod, hc2⟩
      · have ht := (digitChar_props (n % 10) hmod).2.2.2.2.2
        simp only [natDigitsFuel, if_neg h10, List.foldl_append, hval,
          List.foldl_cons, List.foldl_nil]
        omega

theorem takeWhile_eq_self_of_all (p : α → Bool) (l : List α)
    (h : ∀ a ∈ l, p a = true) : l.takeWhile p = l := by
  induction l with
  | nil => rfl
  | cons x xs ih =>
    rw [List.takeWhile_cons, if_pos (h x (List.mem_cons_self x xs))]
    rw [ih (fun a ha => h a (List.mem_cons_of_mem x ha))]

theorem parseSigned_digit (m : Nat) (hm : m < 10) (cs : List Char) :
    parseSigned (digitChar m :: cs) =
      (parseDigits (digitChar m :: cs)).map (fun v => (v : Int)) := by
  interval_cases m <;> rfl

theorem jsParseInt_natToString (n : Nat) : jsParseInt (natToString n) = some (n : Int) := by
  obtain ⟨hne, hdig, hval⟩ := natDigitsFuel_spec (n + 1) n (Nat.lt_succ_self n)
  cases hds : natDigitsFuel (n + 1) n with
  | nil => exact absurd hds hne
  | cons c cs =>
    rw [hds] at hdig hval
    obtain ⟨m, hm, rfl⟩ := hdig c (List.mem_cons_self c cs)
    have hdataeq : (natToString n).data = digitChar m :: cs := hds
    have htake : (digitChar m :: cs).takeWhile (fun ch => ch.isDigit) = digitChar m :: cs := by
      apply takeWhile_eq_self_of_all
      intro a ha
      rcases List.mem_cons.mp ha with rfl | ham
      · exact (digitChar_props m hm).1
      · obtain ⟨m2, hm2, rfl⟩ := hdig a (List.mem_cons_of_mem _ ham)
        exact (digitChar_props m2 hm2).1
    have hpd : parseDigits (digitChar m :: cs) = some n := by
      unfold parseDigits
      rw [htake, if_neg (by simp), hval]
    unfold jsParseInt
    rw [hdataeq, List.dropWhile_cons,
      if_neg (by rw [(digitChar_props m hm).2.1]; simp),
      parseSigned_digit m hm, hpd]
    rfl

/-! ### Splitting lemmas -/

theorem splitOnChar_ne_nil (c : Char) (cs : List Char) : splitOnChar c cs ≠ [] := by
  cases cs with
  | nil => simp [splitOnChar]
  | cons x xs =>
    simp only [splitOnChar]
    cases splitOnChar c xs with
    | nil => simp
    | cons r rs =>
      by_cases h : x = c <;> simp [h]

theorem splitOnChar_no_sep (c : Char) (cs : List Char) (h : ∀ x ∈ cs, ¬ x = c) :
    splitOnChar c cs = [cs] := by
  induction cs with
  | nil => rfl
  | cons x xs ih =>
    have hx : ¬ x = c := h x (List.mem_cons_self x xs)
    simp only [splitOnChar, ih (fun y hy => h y (List.mem_cons_of_mem x hy))]
    simp [hx]

theorem splitOnChar_sep_split (c : Char) (pre post : List Char)
    (h : ∀ x ∈ pre, ¬ x = c) :
    splitOnChar c (pre ++ c :: post) = pre :: splitOnChar c post := by
  induction pre with
  | nil =>
    simp only [List.nil_append, splitOnChar]
    cases hs : splitOnChar c post with
    | nil => exact absurd hs (splitOnChar_ne_nil c post)
    | cons r rs => simp
  | cons y ys ih =>
    have hy : ¬ y = c := h y (List.mem_cons_self y ys)
    have ih2 := ih (fun x hx => h x (List.mem_cons_of_mem y hx))
    show (match splitOnChar c (ys ++ c :: post) with
      | [] => [[y]]
      | r :: rs => if y = c then [] :: r :: rs else (y :: r) :: rs) =
        (y :: ys) :: splitOnChar c post
    rw [ih2]
    simp [hy]

theorem splitOnChar_length (c : Char) (cs : List Char) :
    (splitOnChar c cs).length = cs.count c + 1 := by
  induction cs with
  | nil => simp [splitOnChar]
  | cons x xs ih =>
    simp only [splitOnChar]
    cases hs : splitOnChar c xs with
    | nil => exact absurd hs (splitOnChar_ne_nil c xs)
    | cons r rs =>
      rw [hs] at ih
      rw [List.count_cons]
      dsimp only
      by_cases h : x = c
      · rw [if_pos h, if_pos (by exact beq_iff_eq.mpr h)]
        simp only [List.length_cons] at ih ⊢
        omega
      · rw [if_neg h, if_neg (by simpa using h)]
        simp only [List.length_cons] at ih ⊢
        omega

/-! ### Location parser contract -/

theorem natToString_digits (n : Nat) :
    ∀ c ∈ (natToString n).data, ∃ m, m < 10 ∧ c = digitChar m :=
  (natDigitsFuel_spec (n + 1) n (Nat.lt_succ_self n)).2.1

theorem extractLocation_single (fileName : String) (n : Nat)
    (hcolon : ∀ ch ∈ fileName.data, ¬ ch = ':') :
    extractLocationInformation (fileName ++ ":" ++ natToString n) =
      .ok { fileName := fileName, startLine := some (n : Int),
            endLine := some (n : Int) } := by
  have hdigits := natToString_digits n
  have hdata : (fileName ++ ":" ++ natToString n).data
      = fileName.data ++ ':' :: (natToString n).data := by
    show (fileName.data ++ [':']) ++ (natToString n).data
      = fileName.data ++ ':' :: (natToString n).data
    rw [List.append_assoc]
    rfl
  have hjs : jsSplit ':' (fileName ++ ":" ++ natToString n)
      = [fileName, natToString n] := by
    unfold jsSplit
    rw [hdata, splitOnChar_sep_split ':' fileName.data _ hcolon, splitOnChar_no_sep]
    · rfl
    · intro x hx
      obtain ⟨m, hm, rfl⟩ := hdigits x hx
      exact (digitChar_props m hm).2.2.2.2.1
  have hnodash : jsContainsChar (natToString n) '-' = false := by
    unfold jsContainsChar
    rw [List.any_eq_false]
    intro x hx
    obtain ⟨m, hm, rfl⟩ := hdigits x hx
    simpa using (digitChar_props m hm).2.2.1
  simp only [extractLocationInformation, hjs, List.length_cons, List.length_nil]
  rw [if_neg (by omega)]
  rw [if_neg (by rw [hnodash]; simp), jsParseInt_natToString]

theorem extractLocation_range (fileName : String) (a b : Nat)
    (hcolon : ∀ ch ∈ fileName.data, ¬ ch = ':') :
    extractLocationInformation
        (fileName ++ ":" ++ natToString a ++ "-" ++ natToString b) =
      .ok { fileName := fileName, startLine := some (a : Int),
            endLine := some (b : Int) } := by
  have hda := natToString_digits a
  have hdb := natToString_digits b
  have hdata : (fileName ++ ":" ++ natToString a ++ "-" ++ natToString b).data
      = fileName.data ++ ':' :: ((natToString a).data ++ '-' :: (natToString b).data) := by
    show ((fileName.data ++ [':']) ++ (natToString a).data ++ ['-'])
        ++ (natToString b).data
      = fileName.data ++ ':' :: ((natToString a).data ++ '-' :: (natToString b).data)
    simp [List.append_assoc]
  have hpost : ∀ x ∈ (natToString a).data ++ '-' :: (natToString b).data, ¬ x = ':' := by
    intro x hx
    rcases List.mem_append.mp hx with hx1 | hx2
    · obtain ⟨m, hm, rfl⟩ := hda x hx1
      exact (digitChar_props m hm).2.2.2.2.1
    · rcases List.mem_cons.mp hx2 with rfl | hx3
      · decide
      · obtain ⟨m, hm, rfl⟩ := hdb x hx3
        exact (digitChar_props m hm).2.2.2.2.1
  have hd2 : (natToString a ++ "-" ++ natToString b).data
      = (natToString a).data ++ '-' :: (natToString b).data := by
    show ((natToString a).data ++ ['-']) ++ (natToString b).data
      = (natToString a).data ++ '-' :: (natToString b).data
    simp
  have hjs : jsSplit ':' (fileName ++ ":" ++ natToString a ++ "-" ++ natToString b)
      = [fileName, natToString a ++ "-" ++ natToString b] := by
    unfold jsSplit
    rw [hdata, splitOnChar_sep_split ':' fileName.data _ hcolon,
      splitOnChar_no_sep _ _ hpost]
    exact congrArg (fun s => [fileName, s])
      (show String.mk ((natToString a).data ++ '-' :: (natToString b).data)
          = natToString a ++ "-" ++ natToString b from congrArg String.mk hd2.symm)
  have hdash : jsContainsChar (natToString a ++ "-" ++ natToString b) '-' = true := by
    unfold jsContainsChar
    rw [List.any_eq_true]
    refine ⟨'-', ?_, by simp⟩
    show '-' ∈ ((natToString a).data ++ ['-']) ++ (natToString b).data
    simp
  have hjs2 : jsSplit '-' (natToString a ++ "-" ++ natToString b)
      = [natToString a, natToString b] := by
    unfold jsSplit
    rw [hd2, splitOnChar_sep_split '-' (natToString a).data _ (by
      intro x hx
      obtain ⟨m, hm, rfl⟩ := hda x hx
      exact (digitChar_props m hm).2.2.1), splitOnChar_no_sep]
    · rfl
    · intro x hx
      obtain ⟨m, hm, rfl⟩ := hdb x hx
      exact (digitChar_props m hm).2.2.1
  simp only [extractLocationInformation, hjs, List.length_cons, List.length_nil]
  rw [if_neg (by omega)]
  rw [if_pos (by rw [hdash]), hjs2]
  rw [show ([natToString a, natToString b].getD 0 "") = natToString a from rfl]
  rw [show ([natToString a, natToString b].getD 1 "") = natToString b from rfl]
  rw [jsParseInt_natToString, jsParseInt_natToString]

theorem extractLocation_multicolon (s : String) (h : 2 ≤ s.data.count ':') :
    extractLocationInformation s = .error .unsupportedLocationFormat := by
  have hlen : (jsSplit ':' s).length = s.data.count ':' + 1 := by
    unfold jsSplit
    rw [List.length_map, splitOnChar_length]
  simp only [extractLocationInformation]
  rw [if_pos (by rw [hlen]; omega)]

/-- C5: the location parser maps `"<fileName>:<n>"` to
`{fileName, n, n}`, `"<fileName>:<a>-<b>"` to `{fileName, a, b}`, and
fails with the unsupported-location error on every input with more than
one `':'`. -/
theorem extractLocationInformation_spec (fileName : String) (a b : Nat)
    (hcolon : ∀ ch ∈ fileName.data, ¬ ch = ':') :
    extractLocationInformation (fileName ++ ":" ++ natToString a) =
      .ok { fileName := fileName, startLine := some (a : Int),
            endLine := some (a : Int) } ∧
    extractLocationInformation
        (fileName ++ ":" ++ natToString a ++ "-" ++ natToString b) =
      .ok { fileName := fileName, startLine := some (a : Int),
            endLine := some (b : Int) } ∧
    ∀ s : String, 2 ≤ s.data.count ':' →
      extractLocationInformation s = .error .unsupportedLocationFormat :=
  ⟨extractLocation_single fileName a hcolon,
   extractLocation_range fileName a b hcolon,
   fun s hs => extractLocation_multicolon s hs⟩

/-- C5 witness: the specification's three examples. -/
theorem extractLocationInformation_spec_witness :
    extractLocationInformation ("a/b.ts" ++ ":" ++ natToString 10) =
      .ok { fileName := "a/b.ts", startLine := some 10, endLine := some 10 } ∧
    extractLocationInformation
        ("a/b.ts" ++ ":" ++ natToString 10 ++ "-" ++ natToString 20) =
      .ok { fileName := "a/b.ts", startLine := some 10, endLine := some 20 } ∧
    extractLocationInformation "a/b.ts:10:2" = .error .unsupportedLocationFormat := by
  have h := extractLocationInformation_spec "a/b.ts" 10 20 (by decide)
  exact ⟨h.1, h.2.1, h.2.2 "a/b.ts:10:2" (by decide)⟩
